import Mathlib

/-!
Verification development for the web-sherlock runner/history core.

The Python sources (`sherlock_runner.py`, `history_manager.py`, `app.py`)
are shallowly embedded below: strings are `List Char`, dictionaries are
association lists preserving insertion order, file contents and process
outcomes are explicit inductive values, and the two regular expressions
used by the output parser are hand-compiled to deterministic matchers
(their backtracking is resolved statically, as argued in the comments).
-/

namespace WebSherlock

/-- Strings of the embedded program: lists of characters. -/
abbrev Str := List Char

/-- Python whitespace as used by `str.strip`, `\s` and `str.split` related
code paths (ASCII fragment: space, tab, newline, carriage return,
vertical tab, form feed). -/
def pySpace (c : Char) : Bool :=
  c == ' ' || c == '\t' || c == '\n' || c == '\r' || c == '\x0b' || c == '\x0c'

/-- Python `str.strip()`: drop whitespace at both ends. -/
def pyStrip (s : Str) : Str :=
  ((s.dropWhile pySpace).reverse.dropWhile pySpace).reverse

/-- `strStarts pat s` is true when `s` starts with `pat`
(Python `str.startswith`). -/
def strStarts : Str → Str → Bool
  | [], _ => true
  | _ :: _, [] => false
  | p :: ps, c :: cs => p == c && strStarts ps cs

/-- `strHasSub pat s` is true when `pat` occurs as a contiguous substring
of `s` (Python `pat in s`; an empty pattern is contained in every string). -/
def strHasSub (pat s : Str) : Bool :=
  match s with
  | [] => pat.isEmpty
  | _ :: tl => strStarts pat s || strHasSub pat tl

/-- Python `str.lower()` (ASCII fragment). -/
def lowerStr (s : Str) : Str := s.map Char.toLower

/-- Python `str.split(sep)` for a one-character separator: keeps empty
pieces, so the empty string splits to one empty piece. -/
def splitOnChar (sep : Char) : Str → List Str
  | [] => [[]]
  | c :: rest =>
    let r := splitOnChar sep rest
    if c == sep then [] :: r
    else
      match r with
      | [] => [[c]]
      | h :: t => (c :: h) :: t

/-- Outcome status of one (username, site) pair, as written by the parser
(the strings `found` / `not_found` of the Python dictionaries). -/
inductive Status where
  | found
  | not_found
deriving DecidableEq

instance : BEq Status := ⟨fun a b => decide (a = b)⟩

/-- One per-site outcome record: the dictionary
`status / url / response_time` built by `_parse_unified_output`. -/
structure SiteOutcome where
  status : Status
  url : Str
  response_time : Nat
deriving DecidableEq

/-- Per-username results: an insertion-ordered association list from site
name to outcome (a Python dict). -/
abbrev Sites := List (Str × SiteOutcome)

/-- The parser's result: username to per-site outcomes
(`results` in `_parse_unified_output`). -/
abbrev PerUser := List (Str × Sites)

/-- Python dict key lookup, as a total operation. -/
def dictGet {α : Type} (m : List (Str × α)) (k : Str) : Option α :=
  (m.find? (fun p => p.1 == k)).map (fun p => p.2)

/-- Python dict assignment `m[k] = v`: replace in place when the key
exists (keeping its position), otherwise append at the end. -/
def dictSet {α : Type} (m : List (Str × α)) (k : Str) (v : α) : List (Str × α) :=
  if m.any (fun p => p.1 == k) then
    m.map (fun p => if p.1 == k then (p.1, v) else p)
  else
    m ++ [(k, v)]

/-- Key lookup in the inner (site) dictionary. -/
def siteGet (sites : Sites) (site : Str) : Option SiteOutcome :=
  dictGet sites site

/-- `sites[site] = o`. -/
def siteSet (sites : Sites) (site : Str) (o : SiteOutcome) : Sites :=
  dictSet sites site o

/-- Key lookup in the outer (username) dictionary:
`results[u]` as a total operation. -/
def pyGet (res : PerUser) (u : Str) : Option Sites :=
  dictGet res u

/-- `results[u][site] = o` for a username `u` already present as a key. -/
def setOutcome (res : PerUser) (u site : Str) (o : SiteOutcome) : PerUser :=
  res.map (fun p => if p.1 == u then (p.1, siteSet p.2 site o) else p)

/-- Whether `u` is a key of `results`. -/
def hasKey (res : PerUser) (u : Str) : Bool :=
  res.any (fun p => p.1 == u)

/-- Add a key with an empty inner dict unless it is already present
(one step of the dict comprehension). -/
def addKey (res : PerUser) (u : Str) : PerUser :=
  if hasKey res u then res else res ++ [(u, [])]

/-- The initialization of the parser:
a dict mapping every requested username to an empty dict. -/
def initResults (usernames : List Str) : PerUser :=
  usernames.foldl addKey []

/-!
The two regular expressions of `_parse_unified_output` are
`\[\+\]\s*([^:]+):\s*(https?://[^\s]+)` (found lines) and
`\[-\]\s*([^:]+):` (not-found lines).  Their backtracking is
deterministic, so they compile to the matchers below:
`[^:]+` cannot cross a colon, so group 1 always ends at the first colon
reachable from its start; when the greedy `\s*` before it leaves the
matcher facing that colon directly, the only successful backtrack hands
exactly the last whitespace character to group 1; and the `\s*` before
the URL cannot give characters back, because the URL must start with
`h`, which is not whitespace.
-/

/-- Match `https?://[^\s]+` anchored at the start of `s`; returns the
matched URL and the remaining characters. -/
def matchUrlAt (s : Str) : Option (Str × Str) :=
  let try1 : Option (Str × Str) :=
    if strStarts "https://".toList s then
      some ("https://".toList, s.drop 8)
    else if strStarts "http://".toList s then
      some ("http://".toList, s.drop 7)
    else none
  match try1 with
  | none => none
  | some (scheme, rest) =>
    let body := rest.takeWhile (fun c => !pySpace c)
    if body.isEmpty then none
    else some (scheme ++ body, rest.drop body.length)

/-- Match `\s*(https?://[^\s]+)` anchored at the start of `s`
(the part of the found-line pattern after the colon); returns the URL. -/
def matchUrlAfterColon (s : Str) : Option Str :=
  match matchUrlAt (s.dropWhile pySpace) with
  | some (url, _) => some url
  | none => none

/-- Match `\[\+\]\s*([^:]+):\s*(https?://[^\s]+)` anchored at the start of
`s`; returns (group 1, group 2). -/
def matchPlusAt (s : Str) : Option (Str × Str) :=
  match s with
  | '[' :: '+' :: ']' :: rest =>
    let ws := rest.takeWhile pySpace
    let r1 := rest.dropWhile pySpace
    match r1 with
    | ':' :: r2 =>
      -- `[^:]+` can only succeed by taking the last whitespace character
      -- back from the greedy `\s*`.
      if ws.isEmpty then none
      else
        match matchUrlAfterColon r2 with
        | some url => some ([ws.getLastD ' '], url)
        | none => none
    | _ :: _ =>
      let g1 := r1.takeWhile (fun d => d != ':')
      match r1.drop g1.length with
      | ':' :: r2 =>
        match matchUrlAfterColon r2 with
        | some url => some (g1, url)
        | none => none
      | _ => none
    | [] => none
  | _ => none

/-- Match `\[-\]\s*([^:]+):` anchored at the start of `s`;
returns group 1. -/
def matchMinusAt (s : Str) : Option Str :=
  match s with
  | '[' :: '-' :: ']' :: rest =>
    let ws := rest.takeWhile pySpace
    let r1 := rest.dropWhile pySpace
    match r1 with
    | ':' :: _ =>
      if ws.isEmpty then none else some [ws.getLastD ' ']
    | _ :: _ =>
      let g1 := r1.takeWhile (fun d => d != ':')
      match r1.drop g1.length with
      | ':' :: _ => some g1
      | _ => none
    | [] => none
  | _ => none

/-- Python `re.search` for the found-line pattern: try every start
position from left to right. -/
def rePlusSearch : Str → Option (Str × Str)
  | [] => none
  | c :: rest =>
    match matchPlusAt (c :: rest) with
    | some r => some r
    | none => rePlusSearch rest

/-- Python `re.search` for the not-found-line pattern. -/
def reMinusSearch : Str → Option Str
  | [] => none
  | c :: rest =>
    match matchMinusAt (c :: rest) with
    | some r => some r
    | none => reMinusSearch rest

/-- Python `re.findall` of `https?://[^\s]+`: leftmost, non-overlapping
matches, scanning resumes after each match (fuel is the input length,
which is enough because every step consumes at least one character). -/
def findAllUrlsAux : Nat → Str → List Str
  | 0, _ => []
  | _ + 1, [] => []
  | n + 1, c :: rest =>
    match matchUrlAt (c :: rest) with
    | some (url, after) => url :: findAllUrlsAux n after
    | none => findAllUrlsAux n rest

/-- All URLs occurring in the text (`re.findall` in method 2). -/
def findAllUrls (s : Str) : List Str := findAllUrlsAux s.length s

/-- Python truthiness of `matched_username`: `None` and the empty string
are both falsy. -/
def truthyOpt (o : Option Str) : Bool :=
  match o with
  | some u => !u.isEmpty
  | none => false

/-- The found-line URL test:
`username.lower() in url.lower() or username in url`. -/
def urlMatches (username url : Str) : Bool :=
  strHasSub (lowerStr username) (lowerStr url) || strHasSub username url

/-- The line test: `username.lower() in line.lower()`. -/
def lineMatches (username line : Str) : Bool :=
  strHasSub (lowerStr username) (lowerStr line)

/-- Username attribution for a found line: first username whose substring
occurs in the URL, else (when that produced nothing truthy) first
username occurring in the line, else the first username of the batch. -/
def attributePlus (usernames : List Str) (line url : Str) : Option Str :=
  let m1 := usernames.find? (fun u => urlMatches u url)
  let m2 :=
    if truthyOpt m1 then m1
    else
      match usernames.find? (fun u => lineMatches u line) with
      | some u => some u
      | none => m1
  if truthyOpt m2 then m2
  else
    match usernames with
    | [] => m2
    | u :: _ => some u

/-- Username attribution for a not-found line: first username occurring in
the line, else the first username of the batch. -/
def attributeMinus (usernames : List Str) (line : Str) : Option Str :=
  let m1 := usernames.find? (fun u => lineMatches u line)
  if truthyOpt m1 then m1
  else
    match usernames with
    | [] => m1
    | u :: _ => some u

/-- The positive marker `[+]`. -/
def plusMarker : Str := ['[', '+', ']']

/-- The negative marker `[-]`. -/
def minusMarker : Str := ['[', '-', ']']

/-- One iteration of method 1 of `_parse_unified_output`: strip the line,
skip it when blank, then handle found / not-found marker lines, writing
the outcome under the attributed username when that name is truthy. -/
def processLine (usernames : List Str) (res : PerUser) (rawLine : Str) : PerUser :=
  let line := pyStrip rawLine
  if line.isEmpty then res
  else if strStarts plusMarker line then
    match rePlusSearch line with
    | some (g1, url) =>
      let site_name := pyStrip g1
      match attributePlus usernames line url with
      | some u =>
        if u.isEmpty then res
        else setOutcome res u site_name ⟨Status.found, url, 0⟩
      | none => res
    | none => res
  else if strStarts minusMarker line then
    match reMinusSearch line with
    | some g1 =>
      let site_name := pyStrip g1
      match attributeMinus usernames line with
      | some u =>
        if u.isEmpty then res
        else setOutcome res u site_name ⟨Status.not_found, [], 0⟩
      | none => res
    | none => res
  else res

/-- Python `str.title()` (ASCII fragment): uppercase a letter after a
non-letter, lowercase a letter after a letter. -/
def pyTitleAux : Bool → Str → Str
  | _, [] => []
  | prevAlpha, c :: rest =>
    let c' :=
      if c.isAlpha then (if prevAlpha then c.toLower else c.toUpper) else c
    c' :: pyTitleAux c.isAlpha rest

/-- Python `str.title()`. -/
def pyTitle (s : Str) : Str := pyTitleAux false s

/-- `_extract_site_name`: domain of the URL, lowercased, without a leading
`www.`; the first DNS label title-cased when the domain has at least two
labels, else the whole domain title-cased. -/
def _extract_site_name (url : Str) : Str :=
  let netloc :=
    if strStarts "https://".toList url then
      (url.drop 8).takeWhile (fun c => c != '/' && c != '?' && c != '#')
    else if strStarts "http://".toList url then
      (url.drop 7).takeWhile (fun c => c != '/' && c != '?' && c != '#')
    else []
  let domain0 := lowerStr netloc
  let domain :=
    if strStarts "www.".toList domain0 then domain0.drop 4 else domain0
  let parts := splitOnChar '.' domain
  if 2 ≤ parts.length then pyTitle (parts.headD []) else pyTitle domain

/-- Whether `site` is already a key of `results[u]`
(`site_name not in results[username]` in method 2). -/
def siteMem (res : PerUser) (u site : Str) : Bool :=
  match pyGet res u with
  | some sites => sites.any (fun p => p.1 == site)
  | none => false

/-- Method 2 of `_parse_unified_output`: distribute the URLs found in the
whole output round-robin over the usernames, first write wins. -/
def distributeUrls (usernames : List Str) : PerUser → List Str → Nat → PerUser
  | res, [], _ => res
  | res, url :: rest, i =>
    let site_name := _extract_site_name url
    let username := usernames.getD (i % usernames.length) []
    let res' :=
      if siteMem res username site_name then res
      else setOutcome res username site_name ⟨Status.found, url, 0⟩
    distributeUrls usernames res' rest (i + 1)

/-- The outcome currently recorded for a (username, site) pair. -/
def outcomeAt (res : PerUser) (u site : Str) : Option SiteOutcome :=
  match pyGet res u with
  | some sites => siteGet sites site
  | none => none

/-- Total number of recorded (username, site) outcomes. -/
def totalResults (res : PerUser) : Nat :=
  (res.map (fun p => p.2.length)).sum

/-- `_parse_unified_output`: initialize an entry per username, run the
line-oriented method 1, and when it recovered nothing fall back to the
URL-distribution method 2 (which, with an empty username list, dies on a
division by zero that the surrounding handler swallows, leaving the
method-1 results). `stderr` is accepted and ignored, as in the source. -/
def _parse_unified_output (stdout _stderr : Str) (usernames : List Str) : PerUser :=
  let res := (splitOnChar '\n' stdout).foldl (processLine usernames) (initResults usernames)
  if totalResults res == 0 then
    let urls := findAllUrls stdout
    if usernames.isEmpty then res
    else distributeUrls usernames res urls 0
  else res

/-! ## History manager (`history_manager.py`) -/

/-- The search options dictionary. -/
structure SearchOptions where
  print_all : Bool
  print_found : Bool
  nsfw : Bool
  «local» : Bool
deriving DecidableEq

/-- One entry of the per-owner history ledger (`search_entry`). -/
structure HistoryEntry where
  search_id : Str
  usernames : List Str
  options : SearchOptions
  timestamp : Str
  status : Str
  results_count : Nat
  found_count : Nat
  results_file : Option Str
  export_files : List Str
deriving DecidableEq

/-- The `search_data` dictionary handed to `add_search` (`.get` defaults
already applied: status defaults to running, the counts to 0). -/
structure SearchData where
  search_id : Str
  usernames : List Str
  options : SearchOptions
  status : Str
  results_count : Nat
  found_count : Nat
  results_file : Option Str
  export_files : List Str

/-- The entry `add_search` builds from its `search_data` argument. -/
def mkEntry (sd : SearchData) (timestamp : Str) : HistoryEntry :=
  ⟨sd.search_id, sd.usernames, sd.options, timestamp, sd.status,
    sd.results_count, sd.found_count, sd.results_file, sd.export_files⟩

/-- Whether the ledger already holds an entry with this search id. -/
def hasEntry (searches : List HistoryEntry) (sid : Str) : Bool :=
  searches.any (fun e => e.search_id == sid)

/-- Replace the first entry with the given search id, in place. -/
def replaceFirstEntry : List HistoryEntry → Str → HistoryEntry → List HistoryEntry
  | [], _, _ => []
  | e :: rest, sid, entry =>
    if e.search_id == sid then entry :: rest
    else e :: replaceFirstEntry rest sid entry

/-- `add_search` on the owner's `searches` list: replace an existing entry
with the same id in place, otherwise insert at the head; then keep only
the first 50 entries. -/
def add_search (searches : List HistoryEntry) (sd : SearchData) (timestamp : Str) : List HistoryEntry :=
  let entry := mkEntry sd timestamp
  let searches' :=
    if hasEntry searches sd.search_id then
      replaceFirstEntry searches sd.search_id entry
    else entry :: searches
  searches'.take 50

/-- The field updates `update_search_status` applies to a matching entry:
`results_file` only when truthy, `export_files` only when not `None`. -/
def updateEntry (e : HistoryEntry) (status : Str) (results_count found_count : Nat)
    (results_file : Option Str) (export_files : Option (List Str)) : HistoryEntry :=
  { e with
    status := status
    results_count := results_count
    found_count := found_count
    results_file :=
      match results_file with
      | some f => if f.isEmpty then e.results_file else some f
      | none => e.results_file
    export_files :=
      match export_files with
      | some l => l
      | none => e.export_files }

/-- `update_search_status` on the owner's `searches` list: update the
first entry with the given id (the loop breaks there), leave the rest. -/
def update_search_status : List HistoryEntry → Str → Str → Nat → Nat →
    Option Str → Option (List Str) → List HistoryEntry
  | [], _, _, _, _, _, _ => []
  | e :: rest, sid, status, rc, fc, rf, ef =>
    if e.search_id == sid then updateEntry e status rc fc rf ef :: rest
    else e :: update_search_status rest sid status rc fc rf ef

/-- `get_search`'s linear scan: the first entry with the given id. -/
def findById (searches : List HistoryEntry) (sid : Str) : Option HistoryEntry :=
  searches.find? (fun e => e.search_id == sid)

/-- Number of ledger entries carrying the given search id. -/
def countById (searches : List HistoryEntry) (sid : Str) : Nat :=
  (searches.filter (fun e => e.search_id == sid)).length

/-- The whole per-owner history file (`_load_history`'s dictionary). -/
structure HistoryData where
  username : Str
  searches : List HistoryEntry
  created_at : Str
  last_updated : Str

/-- State of an owner's history file on disk: absent, present but not
valid JSON, or valid. -/
inductive FileContent where
  | missing
  | corrupt
  | valid (data : HistoryData)

/-- The fresh ledger `_load_history` builds when it cannot read the file
(`now` stands for `datetime.utcnow().isoformat()`). -/
def freshHistory (username now : Str) : HistoryData :=
  ⟨username, [], now, now⟩

/-- `_load_history`: a missing file and a JSON decode error both yield a
fresh empty ledger; a valid file is returned as is. -/
def _load_history (username : Str) (file : FileContent) (now : Str) : HistoryData :=
  match file with
  | .missing => freshHistory username now
  | .corrupt => freshHistory username now
  | .valid d => d

/-- `get_history`: the loaded searches, truncated only when `limit` is
truthy (so a limit of 0 returns everything, as in the source). -/
def get_history (username : Str) (file : FileContent) (now : Str)
    (limit : Option Nat) : List HistoryEntry :=
  let searches := (_load_history username file now).searches
  match limit with
  | some l => if l == 0 then searches else searches.take l
  | none => searches

/-- `get_search`: linear scan of the loaded searches. -/
def get_search (username : Str) (file : FileContent) (now : Str)
    (search_id : Str) : Option HistoryEntry :=
  findById (_load_history username file now).searches search_id

/-! ## Runner (`sherlock_runner.py`) -/

/-- The command line `_search_all_usernames_unified` assembles, in the
source's order: interpreter and module, a fixed `--timeout 3` and
`--no-color`, then `--print-all` (taking precedence) or `--print-found`,
the independent `--nsfw` and `--local` toggles, and finally all
usernames as positional arguments. -/
def buildUnifiedCommand (sherlock_path : Str) (options : SearchOptions)
    (usernames : List Str) : List Str :=
  let cmd := ["python3".toList, "-m".toList, sherlock_path]
  let cmd := cmd ++ ["--timeout".toList, "3".toList]
  let cmd := cmd ++ ["--no-color".toList]
  let cmd := cmd ++
    (if options.print_all then ["--print-all".toList]
     else if options.print_found then ["--print-found".toList]
     else [])
  let cmd := cmd ++ (if options.nsfw then ["--nsfw".toList] else [])
  let cmd := cmd ++ (if options.«local» then ["--local".toList] else [])
  cmd ++ usernames

/-- The option-derived flags of the unified command, in the source's
order. -/
def optFlags (options : SearchOptions) : List Str :=
  (if options.print_all then ["--print-all".toList]
   else if options.print_found then ["--print-found".toList]
   else []) ++
  (if options.nsfw then ["--nsfw".toList] else []) ++
  (if options.«local» then ["--local".toList] else [])

/-- The process timeout budget: `max(60, len(usernames) * 15)` seconds. -/
def totalTimeout (usernames : List Str) : Nat :=
  max 60 (usernames.length * 15)

/-- How the one `subprocess.run` call ends: normal completion with its
captured output, `subprocess.TimeoutExpired`, or any launch exception
(such as the interpreter or module not being startable). -/
inductive InvokeOutcome where
  | completed (stdout stderr : Str)
  | timeoutExpired
  | launchFailure

/-- `_search_all_usernames_unified` after the command ran: parse the
output on completion; on a timeout or on any other exception return the
empty per-username results dictionary. -/
def _search_all_usernames_unified (inv : InvokeOutcome) (usernames : List Str) : PerUser :=
  match inv with
  | .completed stdout stderr => _parse_unified_output stdout stderr usernames
  | .timeoutExpired => initResults usernames
  | .launchFailure => initResults usernames

/-- One flattened profile record (`profile_data` in `run_search`). -/
structure ProfileData where
  username : Str
  site : Str
  url : Str
  status : Status
  response_time : Nat
deriving DecidableEq

/-- The inner step of `run_search`'s collection loop: route one
(username, site) outcome into the found or not-found list. -/
def collectSite (username : Str) (acc : List ProfileData × List ProfileData)
    (sp : Str × SiteOutcome) : List ProfileData × List ProfileData :=
  let pd : ProfileData := ⟨username, sp.1, sp.2.url, sp.2.status, sp.2.response_time⟩
  if sp.2.status == Status.found then (acc.1 ++ [pd], acc.2)
  else (acc.1, acc.2 ++ [pd])

/-- The outer step: one username's whole per-site dictionary. -/
def collectUser (acc : List ProfileData × List ProfileData) (p : Str × Sites) :
    List ProfileData × List ProfileData :=
  p.2.foldl (collectSite p.1) acc

/-- The loop of `run_search` over `unified_results.items()`: split every
(username, site) outcome into the found and not-found lists, in
dictionary insertion order. -/
def collectProfiles (unified : PerUser) : List ProfileData × List ProfileData :=
  unified.foldl collectUser ([], [])

/-- The `results` dictionary `run_search` returns. -/
structure SearchResults where
  usernames : List Str
  found_profiles : List ProfileData
  not_found_profiles : List ProfileData
  total_sites_checked : Nat
  search_id : Str
  error : Option Str
deriving DecidableEq

/-- The results-file path `run_search` writes and records. -/
def runnerResultsFile (search_id : Str) : Str :=
  "results/sherlock_results_".toList ++ search_id ++ ".json".toList

/-- `run_search`, with a history manager and owner supplied.  `fault`
models an exception somewhere inside its main `try` block: the
surrounding handler swallows it and returns an error dictionary with
empty profile lists, leaving the ledger untouched.  Without a fault, the
unified results are flattened, counted, saved, and the ledger entry for
`search_id` is set to completed. -/
def run_search (fault : Option Str) (inv : InvokeOutcome) (usernames : List Str)
    (search_id : Str) (searches : List HistoryEntry) :
    SearchResults × List HistoryEntry :=
  match fault with
  | some msg => (⟨usernames, [], [], 0, search_id, some msg⟩, searches)
  | none =>
    let unified := _search_all_usernames_unified inv usernames
    let found := (collectProfiles unified).1
    let not_found := (collectProfiles unified).2
    let total := found.length + not_found.length
    let results : SearchResults := ⟨usernames, found, not_found, total, search_id, none⟩
    let searches' := update_search_status searches search_id "completed".toList
      total found.length (some (runnerResultsFile search_id)) none
    (results, searches')

/-! ## Background worker (`app.py`, `run_search_background`) -/

/-- Shared state the worker touches: the owner-to-search-id map of active
searches and the owner's history ledger. -/
structure AppState where
  active_searches : List (Str × Str)
  searches : List HistoryEntry
deriving DecidableEq

/-- Where, if anywhere, the background worker's pipeline raises: inside
`run_search`'s own `try` (swallowed there), or in the worker after
`run_search` returned (modelled at the results-file write; an exception
before `run_search` ends in the same `except`/`finally` path). -/
inductive BackgroundFault where
  | noFault
  | runnerFault (msg : Str)
  | backgroundFault (msg : Str)
deriving DecidableEq

/-- The results-file path the background worker writes and records. -/
def backgroundResultsFile (search_id : Str) : Str :=
  "results/".toList ++ search_id ++ "_results.json".toList

/-- `run_search_background`: run the search, then either record completion
(with the recomputed counts and the worker's results file) or, when the
worker body raised, record failure; in all cases the `finally` block
drops the owner from the active-search map. -/
def run_search_background (fault : BackgroundFault) (inv : InvokeOutcome)
    (usernames : List Str) (search_id owner : Str) (st : AppState) : AppState :=
  let runnerMsg : Option Str :=
    match fault with
    | .runnerFault m => some m
    | _ => none
  let step := run_search runnerMsg inv usernames search_id st.searches
  let results := step.1
  let searches2 :=
    match fault with
    | .backgroundFault _ =>
      update_search_status step.2 search_id "failed".toList 0 0 none (some [])
    | _ =>
      update_search_status step.2 search_id "completed".toList
        (results.found_profiles.length + results.not_found_profiles.length)
        results.found_profiles.length
        (some (backgroundResultsFile search_id)) (some [])
  ⟨st.active_searches.filter (fun p => !(p.1 == owner)), searches2⟩

/-! ## Progress reporter -/

/-- Modelled from the spec: the ProgressReporter record.  Only the shared
`search_progress` map is declared in `app.py`; the `start`/`advance`
operations that populate it are not part of the Python sources under
`src/`, so they are modelled from spec sections 4.3 and 8 (C9). -/
structure ProgressRecord where
  status : Str
  progress : Nat
  message : Str
deriving DecidableEq

/-- The shared progress map, keyed by search id. -/
abbrev ProgressMap := List (Str × ProgressRecord)

/-- Dictionary write into the progress map. -/
def progressSet (m : ProgressMap) (sid : Str) (r : ProgressRecord) : ProgressMap :=
  dictSet m sid r

/-- The read-only snapshot a polling consumer gets. -/
def progressLookup (m : ProgressMap) (sid : Str) : Option ProgressRecord :=
  dictGet m sid

/-- Modelled from the spec: `start(searchId)` initializes the record to
status `starting`, progress 5, message `starting`. -/
def progressStart (m : ProgressMap) (sid : Str) : ProgressMap :=
  progressSet m sid ⟨"starting".toList, 5, "starting".toList⟩

/-- Modelled from the spec: the percent passed to `advance`,
`floor(completedUsernameIndex / totalUsernames * 85) + 5`. -/
def advancePercent (completedUsernameIndex totalUsernames : Nat) : Nat :=
  completedUsernameIndex * 85 / totalUsernames + 5

/-- Modelled from the spec: `advance(searchId, percent, message, ...)`
overwrites the shared record with the running status, the computed
percent and the message. -/
def progressAdvance (m : ProgressMap) (sid : Str)
    (completedUsernameIndex totalUsernames : Nat) (message : Str) : ProgressMap :=
  progressSet m sid
    ⟨"running".toList, advancePercent completedUsernameIndex totalUsernames, message⟩

/-! ## Dictionary lemmas -/

lemma dictGet_dictSet {α : Type} (m : List (Str × α)) (k : Str) (v : α) :
    dictGet (dictSet m k v) k = some v := by
  induction m with
  | nil =>
    rw [dictSet, if_neg (by simp), List.nil_append, dictGet,
      @List.find?_cons_of_pos _ (fun q => q.1 == k) (k, v) [] (by simp),
      Option.map_some']
  | cons p t ih =>
    by_cases hp : (p.1 == k) = true
    · have hany : ((p :: t).any fun q => q.1 == k) = true := by
        simp [List.any_cons, hp]
      rw [dictSet, if_pos hany, List.map_cons, if_pos hp, dictGet,
        @List.find?_cons_of_pos _ (fun q => q.1 == k) (p.1, v) _ hp,
        Option.map_some']
    · by_cases ht : (t.any fun q => q.1 == k) = true
      · have hany : ((p :: t).any fun q => q.1 == k) = true := by
          simp [List.any_cons, ht]
        rw [dictSet, if_pos hany, List.map_cons, if_neg hp, dictGet,
          @List.find?_cons_of_neg _ (fun q => q.1 == k) p _ hp]
        rw [dictSet, if_pos ht, dictGet] at ih
        exact ih
      · have hany : ¬ ((p :: t).any fun q => q.1 == k) = true := by
          simp only [List.any_cons, Bool.or_eq_true]
          rintro (h | h)
          · exact hp h
          · exact ht h
        rw [dictSet, if_neg hany, List.cons_append, dictGet,
          @List.find?_cons_of_neg _ (fun q => q.1 == k) p _ hp]
        rw [dictSet, if_neg ht, dictGet] at ih
        exact ih

lemma hasKey_setOutcome (res : PerUser) (u site : Str) (o : SiteOutcome) (v : Str) :
    hasKey (setOutcome res u site o) v = hasKey res v := by
  unfold hasKey setOutcome
  induction res with
  | nil => rfl
  | cons p t ih =>
    have h1 : ((if p.1 == u then (p.1, siteSet p.2 site o) else p)).1 = p.1 := by
      split <;> rfl
    simp only [List.map_cons, List.any_cons, h1, ih]

lemma pyGet_isSome (res : PerUser) (u : Str) :
    (pyGet res u).isSome = hasKey res u := by
  unfold pyGet dictGet hasKey
  induction res with
  | nil => rfl
  | cons p t ih =>
    by_cases hp : (p.1 == u) = true <;>
      simp [List.find?_cons, List.any_cons, hp, ih]

lemma hasKey_processLine (us : List Str) (res : PerUser) (l : Str) (v : Str) :
    hasKey (processLine us res l) v = hasKey res v := by
  simp only [processLine]
  repeat' split
  all_goals first
    | rfl
    | apply hasKey_setOutcome

lemma hasKey_foldl_processLine (us : List Str) (lines : List Str) (res : PerUser) (v : Str) :
    hasKey (lines.foldl (processLine us) res) v = hasKey res v := by
  induction lines generalizing res with
  | nil => rfl
  | cons l t ih => rw [List.foldl_cons, ih, hasKey_processLine]

lemma hasKey_distributeUrls (us : List Str) (res : PerUser) (urls : List Str)
    (i : Nat) (v : Str) :
    hasKey (distributeUrls us res urls i) v = hasKey res v := by
  induction urls generalizing res i with
  | nil => rfl
  | cons url t ih =>
    simp only [distributeUrls]
    rw [ih]
    split
    · rfl
    · apply hasKey_setOutcome

lemma hasKey_foldl_addKey (us : List Str) (acc : PerUser) (u : Str)
    (h : u ∈ us ∨ hasKey acc u = true) :
    hasKey (us.foldl addKey acc) u = true := by
  induction us generalizing acc with
  | nil =>
    rcases h with h | h
    · cases h
    · exact h
  | cons a t ih =>
    rw [List.foldl_cons]
    apply ih
    rcases h with h | h
    · rcases List.mem_cons.mp h with h | h
      · subst h
        right
        unfold addKey
        split
        · assumption
        · simp [hasKey, List.any_append]
      · exact Or.inl h
    · right
      unfold addKey
      split
      · exact h
      · simp only [hasKey, List.any_append] at h ⊢
        simp [h]

lemma hasKey_initResults (us : List Str) (u : Str) (h : u ∈ us) :
    hasKey (initResults us) u = true :=
  hasKey_foldl_addKey us [] u (Or.inl h)

/-- Claim C2 core: parsing keeps an entry for every requested username. -/
lemma hasKey_parse (stdout stderr : Str) (usernames : List Str) (u : Str)
    (h : u ∈ usernames) :
    hasKey (_parse_unified_output stdout stderr usernames) u = true := by
  simp only [_parse_unified_output]
  have hinit := hasKey_initResults usernames u h
  repeat' split
  all_goals
    first
      | (rw [hasKey_foldl_processLine]; exact hinit)
      | (rw [hasKey_distributeUrls, hasKey_foldl_processLine]; exact hinit)

/-! ## Empty-results lemmas (timeout and launch-failure paths) -/

lemma collectUser_of_nil (acc : List ProfileData × List ProfileData)
    (p : Str × Sites) (h : p.2 = []) : collectUser acc p = acc := by
  unfold collectUser
  rw [h]
  rfl

lemma foldl_collectUser_nil (res : PerUser) (h : ∀ p ∈ res, p.2 = ([] : Sites)) :
    ∀ acc, res.foldl collectUser acc = acc := by
  induction res with
  | nil => intro acc; rfl
  | cons p t ih =>
    intro acc
    rw [List.foldl_cons, collectUser_of_nil acc p (h p (List.mem_cons_self p t))]
    exact ih (fun q hq => h q (List.mem_cons_of_mem p hq)) acc

lemma collectProfiles_empty (res : PerUser) (h : ∀ p ∈ res, p.2 = ([] : Sites)) :
    collectProfiles res = ([], []) :=
  foldl_collectUser_nil res h ([], [])

lemma initResults_inner_nil_aux (us : List Str) (acc : PerUser)
    (h : ∀ p ∈ acc, p.2 = ([] : Sites)) :
    ∀ p ∈ us.foldl addKey acc, p.2 = ([] : Sites) := by
  induction us generalizing acc with
  | nil => exact h
  | cons a t ih =>
    rw [List.foldl_cons]
    apply ih
    intro p hp
    unfold addKey at hp
    split at hp
    · exact h p hp
    · rcases List.mem_append.mp hp with hmem | hmem
      · exact h p hmem
      · rw [List.mem_singleton.mp hmem]

lemma initResults_inner_nil (us : List Str) :
    ∀ p ∈ initResults us, p.2 = ([] : Sites) :=
  initResults_inner_nil_aux us [] (by intro q hq; cases hq)

lemma pyGet_initResults (us : List Str) (u : Str) (h : u ∈ us) :
    pyGet (initResults us) u = some [] := by
  have hs : (pyGet (initResults us) u).isSome = true := by
    rw [pyGet_isSome]
    exact hasKey_initResults us u h
  unfold pyGet dictGet at hs ⊢
  cases hfind : (initResults us).find? (fun p => p.1 == u) with
  | none => rw [hfind] at hs; cases hs
  | some p =>
    have hmem : p ∈ initResults us := List.mem_of_find?_eq_some hfind
    rw [Option.map_some', initResults_inner_nil us p hmem]

/-! ## History update lemmas -/

lemma search_id_updateEntry (e : HistoryEntry) (status : Str) (rc fc : Nat)
    (rf : Option Str) (ef : Option (List Str)) :
    (updateEntry e status rc fc rf ef).search_id = e.search_id := rfl

lemma findById_update_search_status (searches : List HistoryEntry)
    (sid status : Str) (rc fc : Nat) (rf : Option Str) (ef : Option (List Str))
    (e : HistoryEntry) (h : findById searches sid = some e) :
    findById (update_search_status searches sid status rc fc rf ef) sid =
      some (updateEntry e status rc fc rf ef) := by
  induction searches with
  | nil => simp [findById, List.find?] at h
  | cons a t ih =>
    by_cases ha : (a.search_id == sid) = true
    · unfold findById at h
      rw [@List.find?_cons_of_pos _ (fun x => x.search_id == sid) a t ha] at h
      injection h with h
      subst h
      unfold update_search_status
      rw [if_pos ha]
      unfold findById
      rw [@List.find?_cons_of_pos _ (fun x => x.search_id == sid)
        (updateEntry a status rc fc rf ef) t ha]
    · unfold findById at h
      rw [@List.find?_cons_of_neg _ (fun x => x.search_id == sid) a t ha] at h
      unfold update_search_status
      rw [if_neg ha]
      unfold findById
      rw [@List.find?_cons_of_neg _ (fun x => x.search_id == sid) a _ ha]
      exact ih h

/-! ## Ledger counting lemmas -/

lemma countById_cons (e : HistoryEntry) (t : List HistoryEntry) (sid : Str) :
    countById (e :: t) sid =
      (if (e.search_id == sid) = true then 1 else 0) + countById t sid := by
  by_cases h : (e.search_id == sid) = true
  · simp only [countById, List.filter_cons, h, if_true, List.length_cons]
    omega
  · have h' : (e.search_id == sid) = false := by
      revert h; cases (e.search_id == sid) <;> simp
    simp only [countById, List.filter_cons, h', Bool.false_eq_true, if_false, h]
    omega

lemma countById_take_le (l : List HistoryEntry) (n : Nat) (sid : Str) :
    countById (l.take n) sid ≤ countById l sid :=
  List.Sublist.length_le (List.Sublist.filter _ (List.take_sublist n l))

lemma countById_replaceFirst (s : List HistoryEntry) (sid : Str)
    (entry : HistoryEntry) (hid : entry.search_id = sid) (v : Str) :
    countById (replaceFirstEntry s sid entry) v = countById s v := by
  induction s with
  | nil => rfl
  | cons a t ih =>
    unfold replaceFirstEntry
    by_cases ha : (a.search_id == sid) = true
    · rw [if_pos ha, countById_cons, countById_cons]
      have haid : a.search_id = sid := eq_of_beq ha
      rw [hid, haid]
    · rw [if_neg ha, countById_cons, countById_cons, ih]

lemma countById_update_search_status (s : List HistoryEntry) (sid status : Str)
    (rc fc : Nat) (rf : Option Str) (ef : Option (List Str)) (v : Str) :
    countById (update_search_status s sid status rc fc rf ef) v = countById s v := by
  induction s with
  | nil => rfl
  | cons a t ih =>
    unfold update_search_status
    by_cases ha : (a.search_id == sid) = true
    · rw [if_pos ha, countById_cons, countById_cons]
      rfl
    · rw [if_neg ha, countById_cons, countById_cons, ih]

lemma hasEntry_false_iff (s : List HistoryEntry) (sid : Str) :
    hasEntry s sid = false ↔ countById s sid = 0 := by
  induction s with
  | nil => simp [hasEntry, countById]
  | cons a t ih =>
    rw [countById_cons]
    by_cases ha : (a.search_id == sid) = true
    · simp [hasEntry, List.any_cons, ha]
    · have ha' : (a.search_id == sid) = false := by
        revert ha; cases (a.search_id == sid) <;> simp
      simp only [hasEntry, List.any_cons, ha', Bool.false_or, Bool.false_eq_true,
        if_false]
      rw [Nat.zero_add]
      exact ih

/-! ## Attribution lemmas -/

lemma find?_of_unique {α : Type} (p : α → Bool) (l : List α) (u : α)
    (hu : u ∈ l) (huniq : ∀ v ∈ l, (p v = true ↔ v = u)) :
    l.find? p = some u := by
  induction l with
  | nil => cases hu
  | cons a t ih =>
    by_cases hpa : p a = true
    · rw [List.find?_cons_of_pos t hpa]
      rw [(huniq a (List.mem_cons_self a t)).mp hpa]
    · rw [List.find?_cons_of_neg t hpa]
      have hat : u ∈ t := by
        rcases List.mem_cons.mp hu with h | h
        · exact absurd ((huniq a (List.mem_cons_self a t)).mpr h.symm) hpa
        · exact h
      exact ih hat (fun v hv => huniq v (List.mem_cons_of_mem a hv))

lemma truthyOpt_of_ne_nil (u : Str) (hne : u ≠ []) : truthyOpt (some u) = true := by
  unfold truthyOpt
  cases u with
  | nil => exact absurd rfl hne
  | cons a t => rfl

lemma attributePlus_of_find?_url (us : List Str) (line url u : Str) (hne : u ≠ [])
    (h : us.find? (fun v => urlMatches v url) = some u) :
    attributePlus us line url = some u := by
  simp only [attributePlus]
  rw [h, truthyOpt_of_ne_nil u hne]
  simp [truthyOpt_of_ne_nil u hne]

lemma attributePlus_of_line (us : List Str) (line url u : Str) (hne : u ≠ [])
    (hurl : ∀ v ∈ us, urlMatches v url = false)
    (h : us.find? (fun v => lineMatches v line) = some u) :
    attributePlus us line url = some u := by
  have h1 : us.find? (fun v => urlMatches v url) = none :=
    List.find?_eq_none.mpr (fun v hv => by rw [hurl v hv]; exact Bool.false_ne_true)
  have hue : u.isEmpty = false := by
    cases u with
    | nil => exact absurd rfl hne
    | cons a t => rfl
  simp only [attributePlus]
  rw [h1, h]
  simp [truthyOpt, hue]

lemma attributePlus_fallback (us : List Str) (line url : Str)
    (hurl : ∀ v ∈ us, urlMatches v url = false)
    (hline : ∀ v ∈ us, lineMatches v line = false) :
    attributePlus us line url = us.head? := by
  have h1 : us.find? (fun v => urlMatches v url) = none :=
    List.find?_eq_none.mpr (fun v hv => by rw [hurl v hv]; exact Bool.false_ne_true)
  have h2 : us.find? (fun v => lineMatches v line) = none :=
    List.find?_eq_none.mpr (fun v hv => by rw [hline v hv]; exact Bool.false_ne_true)
  simp only [attributePlus]
  rw [h1, h2]
  cases us <;> simp [truthyOpt]

lemma attributeMinus_of_line (us : List Str) (line u : Str) (hne : u ≠ [])
    (h : us.find? (fun v => lineMatches v line) = some u) :
    attributeMinus us line = some u := by
  simp only [attributeMinus]
  rw [h, truthyOpt_of_ne_nil u hne]
  simp

lemma attributeMinus_fallback (us : List Str) (line : Str)
    (hline : ∀ v ∈ us, lineMatches v line = false) :
    attributeMinus us line = us.head? := by
  have h2 : us.find? (fun v => lineMatches v line) = none :=
    List.find?_eq_none.mpr (fun v hv => by rw [hline v hv]; exact Bool.false_ne_true)
  simp only [attributeMinus]
  rw [h2]
  cases us <;> simp [truthyOpt]

/-! ## Line-processing reduction lemmas -/

lemma isEmpty_false_of_strStarts (pat s : Str) (c : Char) (hpat : pat = c :: pat.tail)
    (h : strStarts pat s = true) : s.isEmpty = false := by
  cases s with
  | nil =>
    rw [hpat] at h
    simp [strStarts] at h
  | cons a t => rfl

lemma strStarts_minus_not_plus (s : Str) (h : strStarts minusMarker s = true) :
    strStarts plusMarker s = false := by
  cases s with
  | nil => simp [strStarts, minusMarker] at h
  | cons a s1 =>
    cases s1 with
    | nil => simp [strStarts, minusMarker] at h
    | cons b s2 =>
      simp only [minusMarker, strStarts, Bool.and_eq_true] at h
      obtain ⟨ha, hb, hrest⟩ := h
      have hb' : b = '-' := (eq_of_beq hb).symm
      subst hb'
      simp [plusMarker, strStarts]

lemma processLine_plus (us : List Str) (res : PerUser) (l g1 url : Str) (u : Str)
    (hstart : strStarts plusMarker (pyStrip l) = true)
    (hre : rePlusSearch (pyStrip l) = some (g1, url))
    (hattr : attributePlus us (pyStrip l) url = some u)
    (hne : u ≠ []) :
    processLine us res l = setOutcome res u (pyStrip g1) ⟨Status.found, url, 0⟩ := by
  have hempty : (pyStrip l).isEmpty = false :=
    isEmpty_false_of_strStarts plusMarker (pyStrip l) '[' rfl hstart
  have hue : u.isEmpty = false := by
    cases u with
    | nil => exact absurd rfl hne
    | cons a t => rfl
  simp only [processLine, hempty, Bool.false_eq_true, if_false, hstart, if_true,
    hre, hattr, hue]

lemma processLine_minus (us : List Str) (res : PerUser) (l g1 : Str) (u : Str)
    (hstart : strStarts minusMarker (pyStrip l) = true)
    (hre : reMinusSearch (pyStrip l) = some g1)
    (hattr : attributeMinus us (pyStrip l) = some u)
    (hne : u ≠ []) :
    processLine us res l = setOutcome res u (pyStrip g1) ⟨Status.not_found, [], 0⟩ := by
  have hempty : (pyStrip l).isEmpty = false :=
    isEmpty_false_of_strStarts minusMarker (pyStrip l) '[' rfl hstart
  have hplus : strStarts plusMarker (pyStrip l) = false :=
    strStarts_minus_not_plus (pyStrip l) hstart
  have hue : u.isEmpty = false := by
    cases u with
    | nil => exact absurd rfl hne
    | cons a t => rfl
  simp only [processLine, hempty, Bool.false_eq_true, if_false, hplus, hstart,
    if_true, hre, hattr, hue]

/-! ## Overwrite / first-write lemmas -/

lemma pyGet_setOutcome (res : PerUser) (u site : Str) (o : SiteOutcome) :
    pyGet (setOutcome res u site o) u =
      (pyGet res u).map (fun sites => siteSet sites site o) := by
  unfold pyGet dictGet setOutcome
  induction res with
  | nil => rfl
  | cons p t ih =>
    by_cases hp : (p.1 == u) = true
    · rw [List.map_cons, if_pos hp,
        @List.find?_cons_of_pos _ (fun q => q.1 == u) (p.1, siteSet p.2 site o) _ hp,
        @List.find?_cons_of_pos _ (fun q => q.1 == u) p t hp]
      rfl
    · rw [List.map_cons, if_neg hp,
        @List.find?_cons_of_neg _ (fun q => q.1 == u) p _ hp,
        @List.find?_cons_of_neg _ (fun q => q.1 == u) p t hp]
      exact ih

lemma outcomeAt_setOutcome (res : PerUser) (u site : Str) (o : SiteOutcome)
    (h : hasKey res u = true) :
    outcomeAt (setOutcome res u site o) u site = some o := by
  unfold outcomeAt
  rw [pyGet_setOutcome]
  have hs : (pyGet res u).isSome = true := by rw [pyGet_isSome]; exact h
  cases hres : pyGet res u with
  | none => rw [hres] at hs; cases hs
  | some sites =>
    rw [Option.map_some']
    exact dictGet_dictSet sites site o

lemma distributeUrls_skip (us : List Str) (res : PerUser) (url : Str)
    (rest : List Str) (i : Nat)
    (h : siteMem res (us.getD (i % us.length) []) (_extract_site_name url) = true) :
    distributeUrls us res (url :: rest) i = distributeUrls us res rest (i + 1) := by
  simp only [distributeUrls, h, if_true]

/-! ## Claim theorems -/

/-- C2: for every stdout text (including empty) and every list of
requested usernames, `_parse_unified_output` is a total function (it is
defined for all inputs) and its result contains an entry — possibly an
empty per-site mapping — for every requested username: the lookup of any
requested username never misses. -/
theorem parse_never_misses_a_username (stdout stderr : Str)
    (usernames : List Str) (u : Str) (h : u ∈ usernames) :
    (pyGet (_parse_unified_output stdout stderr usernames) u).isSome = true := by
  rw [pyGet_isSome]
  exact hasKey_parse stdout stderr usernames u h

/-- Witness for C2 at a concrete input: empty stdout, batch `[carol]`. -/
theorem parse_never_misses_a_username_witness :
    "carol".toList ∈ ["carol".toList] ∧
    (pyGet (_parse_unified_output [] [] ["carol".toList]) "carol".toList).isSome = true :=
  ⟨by decide, parse_never_misses_a_username [] [] ["carol".toList] "carol".toList (by decide)⟩

/-- C10: loading an owner's history ledger is total — a missing history
file and a corrupt (non-JSON) one both yield a fresh empty ledger, and
the read operations `get_history` and `get_search` return an empty list
and `none` respectively on those failures instead of raising. -/
theorem history_read_total_on_bad_file (username now sid : Str)
    (limit : Option Nat) :
    (_load_history username FileContent.missing now).searches = [] ∧
    (_load_history username FileContent.corrupt now).searches = [] ∧
    get_history username FileContent.missing now limit = [] ∧
    get_history username FileContent.corrupt now limit = [] ∧
    get_search username FileContent.missing now sid = none ∧
    get_search username FileContent.corrupt now sid = none := by
  refine ⟨rfl, rfl, ?_, ?_, rfl, rfl⟩ <;>
  · cases limit with
    | none => rfl
    | some l =>
      show (if l == 0 then ([] : List HistoryEntry) else List.take l []) = []
      rw [List.take_nil]
      split <;> rfl

/-- C9 (spec-modelled): the shared progress record is initialized to
status `starting`, progress 5, message `starting`; advancing writes the
percent `floor(completedUsernameIndex / totalUsernames * 85) + 5`, which
stays within the 5–90 band while usernames remain; both states are
readable by a polling consumer through `progressLookup`. -/
theorem progress_start_and_advance :
    (∀ (m : ProgressMap) (sid : Str),
      progressLookup (progressStart m sid) sid =
        some ⟨"starting".toList, 5, "starting".toList⟩) ∧
    (∀ (m : ProgressMap) (sid : Str) (i n : Nat) (msg : Str),
      progressLookup (progressAdvance m sid i n msg) sid =
        some ⟨"running".toList, i * 85 / n + 5, msg⟩) ∧
    (∀ i n : Nat, i ≤ n → 0 < n →
      5 ≤ advancePercent i n ∧ advancePercent i n ≤ 90) := by
  refine ⟨?_, ?_, ?_⟩
  · intro m sid
    exact dictGet_dictSet m sid _
  · intro m sid i n msg
    exact dictGet_dictSet m sid _
  · intro i n hin hn
    have h2 : i * 85 ≤ n * 85 := Nat.mul_le_mul_right 85 hin
    have h3 : i * 85 / n ≤ n * 85 / n := Nat.div_le_div_right h2
    have h4 : n * 85 / n = 85 := Nat.mul_div_cancel_left 85 hn
    rw [h4] at h3
    exact ⟨Nat.le_add_left 5 _, Nat.add_le_add_right h3 5⟩

/-- Witness for C9 at a concrete input: one fresh map and one advance
with index 1 of 2. -/
theorem progress_start_and_advance_witness :
    progressLookup (progressStart [] "s".toList) "s".toList =
      some ⟨"starting".toList, 5, "starting".toList⟩ ∧
    (1 : Nat) ≤ 2 ∧ (0 : Nat) < 2 ∧
    5 ≤ advancePercent 1 2 ∧ advancePercent 1 2 ≤ 90 :=
  ⟨progress_start_and_advance.1 [] "s".toList, by decide, by decide,
    (progress_start_and_advance.2.2 1 2 (by decide) (by decide)).1,
    (progress_start_and_advance.2.2 1 2 (by decide) (by decide)).2⟩

/-- C7: the one external command carries the interpreter/module prefix,
`--timeout 3` and `--no-color`, then the option flags, then all
usernames as trailing positional arguments; among the flags,
`--print-all` appears exactly when printAll is set (taking precedence:
`--print-found` appears exactly when printFound is set and printAll is
not), and `--nsfw` / `--local` are independent toggles. -/
theorem build_command_flags (sherlock_path : Str) (options : SearchOptions)
    (usernames : List Str) :
    buildUnifiedCommand sherlock_path options usernames =
      ["python3".toList, "-m".toList, sherlock_path, "--timeout".toList,
        "3".toList, "--no-color".toList] ++ optFlags options ++ usernames ∧
    ("--print-all".toList ∈ optFlags options ↔ options.print_all = true) ∧
    ("--print-found".toList ∈ optFlags options ↔
      (options.print_all = false ∧ options.print_found = true)) ∧
    ("--nsfw".toList ∈ optFlags options ↔ options.nsfw = true) ∧
    ("--local".toList ∈ optFlags options ↔ options.«local» = true) := by
  obtain ⟨pa, pf, nf, lo⟩ := options
  cases pa <;> cases pf <;> cases nf <;> cases lo <;>
    exact ⟨by simp [buildUnifiedCommand, optFlags], by decide, by decide,
      by decide, by decide⟩

/-- C3: when the external process times out, every username of the batch
gets an empty per-site mapping, the aggregated document has zero found
and zero not-found profiles, and the history entry for the search is
updated to status `completed` (with zero counts) — not `failed`. -/
theorem timeout_empty_results_completed (usernames : List Str)
    (search_id : Str) (searches : List HistoryEntry) (e : HistoryEntry)
    (h : findById searches search_id = some e) :
    (∀ u ∈ usernames,
      pyGet (_search_all_usernames_unified InvokeOutcome.timeoutExpired usernames) u
        = some []) ∧
    (run_search none InvokeOutcome.timeoutExpired usernames search_id
      searches).1.found_profiles = [] ∧
    (run_search none InvokeOutcome.timeoutExpired usernames search_id
      searches).1.not_found_profiles = [] ∧
    (run_search none InvokeOutcome.timeoutExpired usernames search_id
      searches).1.total_sites_checked = 0 ∧
    ∃ e', findById (run_search none InvokeOutcome.timeoutExpired usernames
        search_id searches).2 search_id = some e' ∧
      e'.status = "completed".toList ∧ e'.results_count = 0 ∧ e'.found_count = 0 := by
  have hcoll : collectProfiles
      (_search_all_usernames_unified InvokeOutcome.timeoutExpired usernames) = ([], []) :=
    collectProfiles_empty _ (initResults_inner_nil usernames)
  refine ⟨?_, ?_, ?_, ?_, ?_⟩
  · intro u hu
    exact pyGet_initResults usernames u hu
  · simp [run_search, hcoll]
  · simp [run_search, hcoll]
  · simp [run_search, hcoll]
  · refine ⟨updateEntry e "completed".toList 0 0
      (some (runnerResultsFile search_id)) none, ?_, rfl, rfl, rfl⟩
    have hupd := findById_update_search_status searches search_id
      "completed".toList 0 0 (some (runnerResultsFile search_id)) none e h
    simp only [run_search, hcoll, List.length_nil, Nat.add_zero]
    exact hupd

/-- Witness for C3 at a concrete input: batch `[alice]`, a one-entry
ledger whose entry is `running`. -/
theorem timeout_empty_results_completed_witness :
    findById [⟨"s1".toList, ["alice".toList], ⟨false, false, false, false⟩,
        "t".toList, "running".toList, 0, 0, none, []⟩] "s1".toList =
      some ⟨"s1".toList, ["alice".toList], ⟨false, false, false, false⟩,
        "t".toList, "running".toList, 0, 0, none, []⟩ ∧
    ∃ e', findById (run_search none InvokeOutcome.timeoutExpired
        ["alice".toList] "s1".toList
        [⟨"s1".toList, ["alice".toList], ⟨false, false, false, false⟩,
          "t".toList, "running".toList, 0, 0, none, []⟩]).2 "s1".toList = some e' ∧
      e'.status = "completed".toList ∧ e'.results_count = 0 ∧ e'.found_count = 0 :=
  ⟨by decide,
    (timeout_empty_results_completed ["alice".toList] "s1".toList
      [⟨"s1".toList, ["alice".toList], ⟨false, false, false, false⟩,
        "t".toList, "running".toList, 0, 0, none, []⟩]
      ⟨"s1".toList, ["alice".toList], ⟨false, false, false, false⟩,
        "t".toList, "running".toList, 0, 0, none, []⟩ (by decide)).2.2.2.2⟩

/-- C4 counterexample: when the external process cannot be launched, the
runner swallows the exception and `run_search` still records the batch
as `completed` — not `failed` as the claim states — shown here on the
concrete batch `[alice]` with a one-entry `running` ledger. -/
theorem launch_error_recorded_completed_not_failed :
    ((run_search none InvokeOutcome.launchFailure ["alice".toList] "s1".toList
      [⟨"s1".toList, ["alice".toList], ⟨false, false, false, false⟩,
        "t".toList, "running".toList, 0, 0, none, []⟩]).2.map
        (fun x => x.status)) = ["completed".toList] ∧
    "completed".toList ≠ "failed".toList := by decide

/-- C4 amended: if the external tool cannot be started, the launch error
is swallowed inside the runner: no partial results are produced for any
username (every per-site mapping is empty, the document has zero
profiles), and the batch's history entry is recorded as `completed` with
zero results, not `failed`. -/
theorem launch_error_empty_results_completed (usernames : List Str)
    (search_id : Str) (searches : List HistoryEntry) (e : HistoryEntry)
    (h : findById searches search_id = some e) :
    (∀ u ∈ usernames,
      pyGet (_search_all_usernames_unified InvokeOutcome.launchFailure usernames) u
        = some []) ∧
    (run_search none InvokeOutcome.launchFailure usernames search_id
      searches).1.found_profiles = [] ∧
    (run_search none InvokeOutcome.launchFailure usernames search_id
      searches).1.not_found_profiles = [] ∧
    (run_search none InvokeOutcome.launchFailure usernames search_id
      searches).1.total_sites_checked = 0 ∧
    ∃ e', findById (run_search none InvokeOutcome.launchFailure usernames
        search_id searches).2 search_id = some e' ∧
      e'.status = "completed".toList ∧ e'.results_count = 0 ∧ e'.found_count = 0 := by
  have hcoll : collectProfiles
      (_search_all_usernames_unified InvokeOutcome.launchFailure usernames) = ([], []) :=
    collectProfiles_empty _ (initResults_inner_nil usernames)
  refine ⟨?_, ?_, ?_, ?_, ?_⟩
  · intro u hu
    exact pyGet_initResults usernames u hu
  · simp [run_search, hcoll]
  · simp [run_search, hcoll]
  · simp [run_search, hcoll]
  · refine ⟨updateEntry e "completed".toList 0 0
      (some (runnerResultsFile search_id)) none, ?_, rfl, rfl, rfl⟩
    have hupd := findById_update_search_status searches search_id
      "completed".toList 0 0 (some (runnerResultsFile search_id)) none e h
    simp only [run_search, hcoll, List.length_nil, Nat.add_zero]
    exact hupd

/-- Witness for the amended C4 at a concrete input. -/
theorem launch_error_empty_results_completed_witness :
    findById [⟨"s2".toList, ["bob".toList], ⟨false, false, false, false⟩,
        "t".toList, "running".toList, 0, 0, none, []⟩] "s2".toList =
      some ⟨"s2".toList, ["bob".toList], ⟨false, false, false, false⟩,
        "t".toList, "running".toList, 0, 0, none, []⟩ ∧
    ∃ e', findById (run_search none InvokeOutcome.launchFailure
        ["bob".toList] "s2".toList
        [⟨"s2".toList, ["bob".toList], ⟨false, false, false, false⟩,
          "t".toList, "running".toList, 0, 0, none, []⟩]).2 "s2".toList = some e' ∧
      e'.status = "completed".toList ∧ e'.results_count = 0 ∧ e'.found_count = 0 :=
  ⟨by decide,
    (launch_error_empty_results_completed ["bob".toList] "s2".toList
      [⟨"s2".toList, ["bob".toList], ⟨false, false, false, false⟩,
        "t".toList, "running".toList, 0, 0, none, []⟩]
      ⟨"s2".toList, ["bob".toList], ⟨false, false, false, false⟩,
        "t".toList, "running".toList, 0, 0, none, []⟩ (by decide)).2.2.2.2⟩

/-- C5: the ledger holds at most one entry per searchId: both
`add_search` and `update_search_status` preserve the at-most-one
invariant for every searchId, and for a fresh searchId the sequence
`add_search`, `add_search` (same id), `update_search_status completed`
leaves exactly one entry for that id, with terminal status `completed`. -/
theorem ledger_at_most_one_entry_per_id :
    (∀ (s : List HistoryEntry) (sd : SearchData) (ts : Str) (sid : Str),
      countById s sid ≤ 1 → countById (add_search s sd ts) sid ≤ 1) ∧
    (∀ (s : List HistoryEntry) (sid status : Str) (rc fc : Nat)
      (rf : Option Str) (ef : Option (List Str)) (v : Str),
      countById s v ≤ 1 →
      countById (update_search_status s sid status rc fc rf ef) v ≤ 1) ∧
    (∀ (s : List HistoryEntry) (sd : SearchData) (ts1 ts2 : Str) (rc fc : Nat)
      (rf : Option Str) (ef : Option (List Str)),
      countById s sd.search_id = 0 →
      countById (update_search_status (add_search (add_search s sd ts1) sd ts2)
        sd.search_id "completed".toList rc fc rf ef) sd.search_id = 1 ∧
      ∃ e, findById (update_search_status (add_search (add_search s sd ts1) sd ts2)
          sd.search_id "completed".toList rc fc rf ef) sd.search_id = some e ∧
        e.status = "completed".toList) := by
  refine ⟨?_, ?_, ?_⟩
  · intro s sd ts sid h
    simp only [add_search]
    by_cases he : hasEntry s sd.search_id = true
    · rw [if_pos he]
      refine le_trans (countById_take_le _ 50 sid) ?_
      rw [countById_replaceFirst s sd.search_id (mkEntry sd ts) rfl sid]
      exact h
    · rw [if_neg he]
      refine le_trans (countById_take_le _ 50 sid) ?_
      rw [countById_cons]
      by_cases hv : ((mkEntry sd ts).search_id == sid) = true
      · rw [if_pos hv]
        have heq : sd.search_id = sid := eq_of_beq hv
        have hz : countById s sd.search_id = 0 :=
          (hasEntry_false_iff s sd.search_id).mp
            (by revert he; cases hasEntry s sd.search_id <;> simp)
        rw [← heq, hz]
      · rw [if_neg hv, Nat.zero_add]
        exact h
  · intro s sid status rc fc rf ef v h
    rw [countById_update_search_status]
    exact h
  · intro s sd ts1 ts2 rc fc rf ef h0
    have he : hasEntry s sd.search_id = false :=
      (hasEntry_false_iff s sd.search_id).mpr h0
    have hne : ¬ hasEntry s sd.search_id = true := by
      rw [he]; exact Bool.false_ne_true
    have h1 : add_search s sd ts1 = mkEntry sd ts1 :: s.take 49 := by
      simp only [add_search]
      rw [if_neg hne]
      rfl
    have hbeq1 : ((mkEntry sd ts1).search_id == sd.search_id) = true :=
      beq_self_eq_true sd.search_id
    have hbeq2 : ((mkEntry sd ts2).search_id == sd.search_id) = true :=
      beq_self_eq_true sd.search_id
    have h2 : add_search (mkEntry sd ts1 :: s.take 49) sd ts2 =
        mkEntry sd ts2 :: s.take 49 := by
      simp only [add_search]
      have hhe : hasEntry (mkEntry sd ts1 :: s.take 49) sd.search_id = true := by
        unfold hasEntry
        rw [List.any_cons, hbeq1]
        rfl
      rw [if_pos hhe]
      unfold replaceFirstEntry
      rw [if_pos hbeq1]
      show mkEntry sd ts2 :: (s.take 49).take 49 = mkEntry sd ts2 :: s.take 49
      rw [List.take_take, Nat.min_self]
    have h3 : update_search_status (mkEntry sd ts2 :: s.take 49) sd.search_id
        "completed".toList rc fc rf ef =
        updateEntry (mkEntry sd ts2) "completed".toList rc fc rf ef :: s.take 49 := by
      unfold update_search_status
      rw [if_pos hbeq2]
    have hbeq2u : ((updateEntry (mkEntry sd ts2) "completed".toList rc fc rf
        ef).search_id == sd.search_id) = true := hbeq2
    rw [h1, h2, h3]
    constructor
    · rw [countById_cons, if_pos hbeq2u]
      have hz : countById (s.take 49) sd.search_id = 0 :=
        Nat.le_zero.mp (le_trans (countById_take_le s 49 sd.search_id) (le_of_eq h0))
      rw [hz]
    · refine ⟨updateEntry (mkEntry sd ts2) "completed".toList rc fc rf ef, ?_, rfl⟩
      unfold findById
      rw [@List.find?_cons_of_pos _ (fun x => x.search_id == sd.search_id)
        (updateEntry (mkEntry sd ts2) "completed".toList rc fc rf ef)
        (s.take 49) hbeq2]

/-- Witness for C5 at a concrete input: the empty ledger, a `running`
search record, inserted twice and then completed. -/
theorem ledger_at_most_one_entry_per_id_witness :
    countById (add_search []
      ⟨"s1".toList, ["alice".toList], ⟨false, false, false, false⟩,
        "running".toList, 0, 0, none, []⟩ "t0".toList) "s1".toList ≤ 1 ∧
    (countById (update_search_status (add_search (add_search []
        ⟨"s1".toList, ["alice".toList], ⟨false, false, false, false⟩,
          "running".toList, 0, 0, none, []⟩ "t1".toList)
        ⟨"s1".toList, ["alice".toList], ⟨false, false, false, false⟩,
          "running".toList, 0, 0, none, []⟩ "t2".toList)
        "s1".toList "completed".toList 5 2 none none) "s1".toList = 1 ∧
      ∃ e, findById (update_search_status (add_search (add_search []
          ⟨"s1".toList, ["alice".toList], ⟨false, false, false, false⟩,
            "running".toList, 0, 0, none, []⟩ "t1".toList)
          ⟨"s1".toList, ["alice".toList], ⟨false, false, false, false⟩,
            "running".toList, 0, 0, none, []⟩ "t2".toList)
          "s1".toList "completed".toList 5 2 none none) "s1".toList = some e ∧
        e.status = "completed".toList) :=
  ⟨ledger_at_most_one_entry_per_id.1 []
      ⟨"s1".toList, ["alice".toList], ⟨false, false, false, false⟩,
        "running".toList, 0, 0, none, []⟩ "t0".toList "s1".toList (by decide),
    ledger_at_most_one_entry_per_id.2.2 []
      ⟨"s1".toList, ["alice".toList], ⟨false, false, false, false⟩,
        "running".toList, 0, 0, none, []⟩ "t1".toList "t2".toList 5 2 none none
      (by decide)⟩

/-- C1: the attribution heuristic for found lines tries, in order, a
case-insensitive URL substring match, a case-insensitive line substring
match, and the first username of the batch; consequently when the
extracted URL matches exactly one requested username, the found line is
recorded under that username, wherever it and the username sit. -/
theorem attribution_heuristic :
    (∀ (us : List Str) (line url u : Str), u ≠ [] →
      us.find? (fun v => urlMatches v url) = some u →
      attributePlus us line url = some u) ∧
    (∀ (us : List Str) (line url u : Str), u ≠ [] →
      (∀ v ∈ us, urlMatches v url = false) →
      us.find? (fun v => lineMatches v line) = some u →
      attributePlus us line url = some u) ∧
    (∀ (us : List Str) (line url : Str),
      (∀ v ∈ us, urlMatches v url = false) →
      (∀ v ∈ us, lineMatches v line = false) →
      attributePlus us line url = us.head?) ∧
    (∀ (us : List Str) (res : PerUser) (l g1 url u : Str),
      strStarts plusMarker (pyStrip l) = true →
      rePlusSearch (pyStrip l) = some (g1, url) →
      u ∈ us → u ≠ [] →
      (∀ v ∈ us, (urlMatches v url = true ↔ v = u)) →
      processLine us res l = setOutcome res u (pyStrip g1) ⟨Status.found, url, 0⟩) := by
  refine ⟨?_, ?_, ?_, ?_⟩
  · intro us line url u hne h
    exact attributePlus_of_find?_url us line url u hne h
  · intro us line url u hne hurl h
    exact attributePlus_of_line us line url u hne hurl h
  · intro us line url hurl hline
    exact attributePlus_fallback us line url hurl hline
  · intro us res l g1 url u hstart hre hu hne huniq
    exact processLine_plus us res l g1 url u hstart hre
      (attributePlus_of_find?_url us (pyStrip l) url u hne
        (find?_of_unique _ us u hu huniq)) hne

/-- Witness for C1 at a concrete input: batch `[alice, bob]`, a found
line whose URL contains only `bob` (the second username). -/
theorem attribution_heuristic_witness :
    processLine ["alice".toList, "bob".toList]
      (initResults ["alice".toList, "bob".toList])
      "[+] GitHub: https://github.com/bob".toList =
    setOutcome (initResults ["alice".toList, "bob".toList]) "bob".toList
      (pyStrip "GitHub".toList)
      ⟨Status.found, "https://github.com/bob".toList, 0⟩ :=
  attribution_heuristic.2.2.2 ["alice".toList, "bob".toList]
    (initResults ["alice".toList, "bob".toList])
    "[+] GitHub: https://github.com/bob".toList "GitHub".toList
    "https://github.com/bob".toList "bob".toList
    (by decide) (by decide) (by decide) (by decide) (by decide)

/-- C6 counterexample: a later not-found line for the same
(username, site) pair is not ignored — it overwrites the earlier found
outcome (the claim predicts the first-written `found` outcome would
survive). -/
theorem later_line_overwrites_counterexample :
    outcomeAt (_parse_unified_output
        "[+] Site: https://x.com/alice\n[-] Site: z".toList [] ["alice".toList])
      "alice".toList "Site".toList = some ⟨Status.not_found, [], 0⟩ ∧
    outcomeAt (_parse_unified_output
        "[+] Site: https://x.com/alice".toList [] ["alice".toList])
      "alice".toList "Site".toList =
      some ⟨Status.found, "https://x.com/alice".toList, 0⟩ ∧
    (⟨Status.not_found, [], 0⟩ : SiteOutcome) ≠
      ⟨Status.found, "https://x.com/alice".toList, 0⟩ := by decide

/-- C6 amended: in the line-oriented pass a later line for an existing
(username, site) pair overwrites the recorded outcome (last write wins)
— marker lines write through `setOutcome`, whose write is
unconditional; only the fallback URL-distribution pass skips a URL
whose (username, site) pair is already recorded (first write wins
there). -/
theorem duplicate_site_pair_semantics :
    (∀ (res : PerUser) (u site : Str) (o : SiteOutcome), hasKey res u = true →
      outcomeAt (setOutcome res u site o) u site = some o) ∧
    (∀ (us : List Str) (res : PerUser) (url : Str) (rest : List Str) (i : Nat),
      siteMem res (us.getD (i % us.length) []) (_extract_site_name url) = true →
      distributeUrls us res (url :: rest) i = distributeUrls us res rest (i + 1)) ∧
    (∀ (us : List Str) (res : PerUser) (l g1 : Str) (u : Str),
      strStarts minusMarker (pyStrip l) = true →
      reMinusSearch (pyStrip l) = some g1 →
      attributeMinus us (pyStrip l) = some u → u ≠ [] →
      processLine us res l = setOutcome res u (pyStrip g1) ⟨Status.not_found, [], 0⟩) := by
  refine ⟨?_, ?_, ?_⟩
  · intro res u site o h
    exact outcomeAt_setOutcome res u site o h
  · intro us res url rest i h
    exact distributeUrls_skip us res url rest i h
  · intro us res l g1 u hstart hre hattr hne
    exact processLine_minus us res l g1 u hstart hre hattr hne

/-- Witness for the amended C6 at concrete inputs: an unconditional
overwrite by `setOutcome`, a skipped already-recorded pair in the URL
distribution, and a not-found marker line writing through `setOutcome`. -/
theorem duplicate_site_pair_semantics_witness :
    outcomeAt (setOutcome
        [("a".toList, [("S".toList, ⟨Status.found, "u0".toList, 0⟩)])]
        "a".toList "S".toList ⟨Status.not_found, [], 0⟩)
      "a".toList "S".toList = some ⟨Status.not_found, [], 0⟩ ∧
    distributeUrls ["a".toList]
        [("a".toList, [("X".toList, ⟨Status.found, "u0".toList, 0⟩)])]
        ["https://x.com/q".toList] 0 =
      distributeUrls ["a".toList]
        [("a".toList, [("X".toList, ⟨Status.found, "u0".toList, 0⟩)])] [] 1 ∧
    processLine ["alice".toList] [("alice".toList, [])] "[-] Site: z".toList =
      setOutcome [("alice".toList, [])] "alice".toList
        (pyStrip "Site".toList) ⟨Status.not_found, [], 0⟩ :=
  ⟨duplicate_site_pair_semantics.1
      [("a".toList, [("S".toList, ⟨Status.found, "u0".toList, 0⟩)])]
      "a".toList "S".toList ⟨Status.not_found, [], 0⟩ (by decide),
    duplicate_site_pair_semantics.2.1 ["a".toList]
      [("a".toList, [("X".toList, ⟨Status.found, "u0".toList, 0⟩)])]
      "https://x.com/q".toList [] 0 (by decide),
    duplicate_site_pair_semantics.2.2 ["alice".toList]
      [("alice".toList, [])] "[-] Site: z".toList "Site".toList "alice".toList
      (by decide) (by decide) (by decide) (by decide)⟩

/-- A faultless `run_search` (with history manager and owner supplied)
always flips the search's ledger entry to `completed`. -/
lemma run_search_records_completed (inv : InvokeOutcome) (usernames : List Str)
    (search_id : Str) (searches : List HistoryEntry) (e : HistoryEntry)
    (h : findById searches search_id = some e) :
    ∃ e', findById (run_search none inv usernames search_id searches).2 search_id
        = some e' ∧ e'.status = "completed".toList := by
  simp only [run_search]
  exact ⟨_, findById_update_search_status searches search_id "completed".toList
    _ _ _ _ e h, rfl⟩

/-- C8 counterexample: an exception inside the runner's
invoke/parse/aggregate pipeline is swallowed by `run_search`'s handler,
so the background worker records the search as `completed`, not
`failed` as the claim states (the admission slot is still released). -/
theorem pipeline_exception_completed_counterexample :
    ((run_search_background (BackgroundFault.runnerFault "boom".toList)
        (InvokeOutcome.completed [] []) ["alice".toList] "s1".toList
        "owner".toList
        ⟨[("owner".toList, "s1".toList)],
          [⟨"s1".toList, ["alice".toList], ⟨false, false, false, false⟩,
            "t".toList, "running".toList, 0, 0, none, []⟩]⟩).searches.map
        (fun x => x.status)) = ["completed".toList] ∧
    ((run_search_background (BackgroundFault.runnerFault "boom".toList)
        (InvokeOutcome.completed [] []) ["alice".toList] "s1".toList
        "owner".toList
        ⟨[("owner".toList, "s1".toList)],
          [⟨"s1".toList, ["alice".toList], ⟨false, false, false, false⟩,
            "t".toList, "running".toList, 0, 0, none, []⟩]⟩).active_searches
      = []) ∧
    "completed".toList ≠ "failed".toList := by decide

/-- C8 amended: wherever the background worker's pipeline raises, the
owner's admission slot is released and the ledger entry never remains
`running`: an exception escaping `run_search` in the worker is recorded
`failed`, while an exception inside `run_search`'s own pipeline is
swallowed there and the search is recorded `completed`. -/
theorem worker_releases_slot_and_settles_status (fault : BackgroundFault)
    (inv : InvokeOutcome) (usernames : List Str) (search_id owner : Str)
    (st : AppState) (e : HistoryEntry)
    (h : findById st.searches search_id = some e) :
    (∀ p ∈ (run_search_background fault inv usernames search_id owner
      st).active_searches, p.1 ≠ owner) ∧
    ∃ e', findById (run_search_background fault inv usernames search_id owner
        st).searches search_id = some e' ∧
      e'.status ≠ "running".toList ∧
      ((∃ m, fault = BackgroundFault.backgroundFault m) →
        e'.status = "failed".toList) ∧
      ((fault = BackgroundFault.noFault ∨
        (∃ m, fault = BackgroundFault.runnerFault m)) →
        e'.status = "completed".toList) := by
  constructor
  · intro p hp
    simp only [run_search_background] at hp
    have hmem := List.mem_filter.mp hp
    intro heq
    have hbeq : (p.1 == owner) = true := by
      rw [heq]
      exact beq_self_eq_true owner
    rw [hbeq] at hmem
    exact Bool.false_ne_true hmem.2
  · cases fault with
    | noFault =>
      simp only [run_search_background]
      obtain ⟨e1, he1, hs1⟩ :=
        run_search_records_completed inv usernames search_id st.searches e h
      refine ⟨_, findById_update_search_status _ search_id "completed".toList
        _ _ _ _ e1 he1, ?_, ?_, fun _ => rfl⟩
      · show "completed".toList ≠ "running".toList
        decide
      · rintro ⟨m, hm⟩
        exact BackgroundFault.noConfusion hm
    | runnerFault m =>
      simp only [run_search_background, run_search]
      refine ⟨_, findById_update_search_status st.searches search_id
        "completed".toList _ _ _ _ e h, ?_, ?_, fun _ => rfl⟩
      · show "completed".toList ≠ "running".toList
        decide
      · rintro ⟨mm, hmm⟩
        exact BackgroundFault.noConfusion hmm
    | backgroundFault m =>
      simp only [run_search_background]
      obtain ⟨e1, he1, hs1⟩ :=
        run_search_records_completed inv usernames search_id st.searches e h
      refine ⟨_, findById_update_search_status _ search_id "failed".toList
        0 0 none (some []) e1 he1, ?_, fun _ => rfl, ?_⟩
      · show "failed".toList ≠ "running".toList
        decide
      · rintro (hm | ⟨mm, hmm⟩)
        · exact BackgroundFault.noConfusion hm
        · exact BackgroundFault.noConfusion hmm

/-- Witness for the amended C8 at a concrete input: a worker-level fault
on a one-entry `running` ledger ends with status `failed`. -/
theorem worker_releases_slot_and_settles_status_witness :
    (findById (run_search_background
        (BackgroundFault.backgroundFault "x".toList)
        (InvokeOutcome.completed [] []) ["alice".toList] "s1".toList
        "owner".toList
        ⟨[("owner".toList, "s1".toList)],
          [⟨"s1".toList, ["alice".toList], ⟨false, false, false, false⟩,
            "t".toList, "running".toList, 0, 0, none, []⟩]⟩).searches
      "s1".toList).map (fun x => x.status) = some "failed".toList := by
  obtain ⟨e', he', _, hbf, _⟩ :=
    (worker_releases_slot_and_settles_status
      (BackgroundFault.backgroundFault "x".toList)
      (InvokeOutcome.completed [] []) ["alice".toList] "s1".toList
      "owner".toList
      ⟨[("owner".toList, "s1".toList)],
        [⟨"s1".toList, ["alice".toList], ⟨false, false, false, false⟩,
          "t".toList, "running".toList, 0, 0, none, []⟩]⟩
      ⟨"s1".toList, ["alice".toList], ⟨false, false, false, false⟩,
        "t".toList, "running".toList, 0, 0, none, []⟩ (by decide)).2
  rw [he']
  simp only [Option.map_some']
  rw [hbf ⟨"x".toList, rfl⟩]

end WebSherlock
